import Mathlib

/-!
Verification of the training/evaluation control loop of `code/bert.py`.

The embedding models, from the source:
* `accuracy` (lines 18-21): the metric computer, with integer divisions made
  explicit via `divUndef` (a zero denominator has no defined value);
* the `DataLoader(dataset, sampler=SequentialSampler(..), batch_size=K,
  drop_last=False)` batching semantics (lines 82-83) as `batches`;
* the four loaders (line 83), `step_per_epoch` (line 94), the per-epoch
  training-loss report (lines 107, 117, 158);
* one optimization step (lines 114-123) as `trainStep`, recording the executed
  operations in order;
* the evaluation loop and its per-batch macro-average (lines 128-152);
* the checkpoint decision (lines 100, 164-166) as `checkpointStep` /
  `runCheckpoints`.

The model forward pass, tokenizer and datasets are external collaborators; the
per-replica loss vector, the per-batch logits and the raw datasets are
parameters of the corresponding definitions.
-/

namespace Bert

/-- `np.argmax` over one row, auxiliary loop: index of the maximum, ties kept at
the lowest index (a later element replaces the current best only when strictly
greater). -/
def argmaxGo : List ℚ → ℕ → ℕ → ℚ → ℕ
  | [], _, best, _ => best
  | x :: xs, i, best, bv =>
    if bv < x then argmaxGo xs (i + 1) i x else argmaxGo xs (i + 1) best bv

/-- `np.argmax(logits, axis=1)` applied to one row (line 19). -/
def argmaxIdx : List ℚ → ℕ
  | [] => 0
  | x :: xs => argmaxGo xs 1 0 x

/-- `sum(outputs == labels)` (line 21): positions where prediction equals label. -/
def countEq (os ls : List ℕ) : ℕ :=
  ((os.zip ls).filter fun p => p.1 == p.2).length

/-- `sum1` (line 20): positions where `outputs[i]==labels[i] and labels[i]==1`. -/
def sum1 (os ls : List ℕ) : ℕ :=
  ((os.zip ls).filter fun p => p.1 == p.2 && p.2 == 1).length

/-- Python true division of the source's integer counts: no guard exists in the
code, so a zero denominator leaves the value undefined (`none`) instead of any
default. -/
def divUndef (a b : ℕ) : Option ℚ :=
  if b = 0 then none else some ((a : ℚ) / (b : ℚ))

/-- `accuracy(logits, labels)` (lines 18-21): returns
`(sum(outputs==labels)/len(outputs), sum1/sum(outputs), sum1/sum(labels))`,
undefined as a whole when any denominator is zero. -/
def accuracy (logits : List (List ℚ)) (labels : List ℕ) : Option (ℚ × ℚ × ℚ) :=
  let outputs := logits.map argmaxIdx
  match divUndef (countEq outputs labels) outputs.length,
        divUndef (sum1 outputs labels) outputs.sum,
        divUndef (sum1 outputs labels) labels.sum with
  | some a, some p, some r => some (a, p, r)
  | _, _, _ => none

/-- MetricComputer as the spec words it: precision with denominator
"count where predicted==1" and recall with denominator "count where true==1"
(spec 4.1), for comparison against the source's `accuracy`. -/
def precisionRecallSpec (logits : List (List ℚ)) (labels : List ℕ) :
    Option (ℚ × ℚ) :=
  let outputs := logits.map argmaxIdx
  match divUndef (sum1 outputs labels) ((outputs.filter fun o => o == 1).length),
        divUndef (sum1 outputs labels) ((labels.filter fun l => l == 1).length) with
  | some p, some r => some (p, r)
  | _, _ => none

/-- `DataLoader(datasets[i], sampler=SequentialSampler(datasets[i]),
batch_size=K, drop_last=False)` (lines 82-83): sequential batches of size `K`
over the dataset in order, the trailing short batch kept. Empty when `K = 0`
(the library rejects a non-positive batch size). -/
def batches (K : ℕ) (xs : List α) : List (List α) :=
  if K = 0 then []
  else
    match xs with
    | [] => []
    | x :: rest => (x :: rest).take K :: batches K ((x :: rest).drop K)
termination_by xs.length
decreasing_by
  simp only [List.length_drop, List.length_cons]
  omega

/-- The four `DataLoader`s of line 83, indexed as `data_loaders[0..3]`. Each
element of a loader is one batch (a list of dataset examples). -/
structure Loaders (α : Type) where
  dl0 : List (List α)
  dl1 : List (List α)
  dl2 : List (List α)
  dl3 : List (List α)

/-- Line 83: `[DataLoader(datasets[i], sampler=samplers[i],
batch_size=args.train_batch_size, drop_last=False) for i in range(4)]` —
every loader, the evaluation one (`data_loaders[3]`) included, is built with
`args.train_batch_size`; `args.eval_batch_size` (line 32) is bound by the
argument parser but used by no loader. -/
def buildLoaders (train_batch_size eval_batch_size : ℕ)
    (datasets : Fin 4 → List α) : Loaders α :=
  { dl0 := batches train_batch_size (datasets 0)
    dl1 := batches train_batch_size (datasets 1)
    dl2 := batches train_batch_size (datasets 2)
    dl3 := batches train_batch_size (datasets 3) }

/-- Line 94: `step_per_epoch = len(data_loaders[0])*3`. -/
def step_per_epoch (L : Loaders α) : ℕ :=
  L.dl0.length * 3

/-- Lines 107-117: `train_loss` accumulated over `data_loaders[:3]`, one
`loss.item()` per batch; `lossOf` is the scalar loss the model returns for a
batch. -/
def epoch_train_loss_sum (lossOf : List α → ℚ) (L : Loaders α) : ℚ :=
  ((L.dl0 ++ L.dl1 ++ L.dl2).map lossOf).sum

/-- Line 158: the reported `train_loss / step_per_epoch`. -/
def reported_train_loss (lossOf : List α → ℚ) (L : Loaders α) : ℚ :=
  epoch_train_loss_sum lossOf L / (step_per_epoch L : ℚ)

/-- The quantity the specification speaks about: the number of training
batches summed over the three training folds. -/
def train_batch_count (L : Loaders α) : ℕ :=
  L.dl0.length + L.dl1.length + L.dl2.length

/-- The operations a training step runs, in execution order. -/
inductive StepOp
  | forward
  | reduceMeanLoss
  | backward
  | clipGradNorm (maxNorm : ℚ)
  | optimizerStep
  | schedulerStep
  | zeroGrad
deriving DecidableEq

/-- Lines 114-123, one optimization step. `lossVec` is the per-replica loss the
forward call returns (a singleton when one device is used). Yields the scalar
loss added to `train_loss` and the operations in the order executed:
`loss = model(...)` (114), `loss = loss.mean()` when `n_gpu > 1` (115-116),
`loss.backward()` (119), `clip_grad_norm_(.., 1.0)` (120), `optimizer.step()`
(121), `scheduler.step()` (122), `model.zero_grad()` (123). -/
def trainStep (n_gpu : ℕ) (lossVec : List ℚ) : ℚ × List StepOp :=
  let log0 := [StepOp.forward]
  let reduced :=
    if 1 < n_gpu then (lossVec.sum / (lossVec.length : ℚ), log0 ++ [StepOp.reduceMeanLoss])
    else (lossVec.headD 0, log0)
  (reduced.1, reduced.2 ++ [StepOp.backward, StepOp.clipGradNorm 1,
    StepOp.optimizerStep, StepOp.schedulerStep, StepOp.zeroGrad])

/-- What one evaluation batch produces (lines 130-147): `loss.mean().item()`,
the three components of `accuracy(logits, label_ids)`, and `input_ids.size(0)`. -/
structure EvalBatchOut where
  loss : ℚ
  acc : ℚ
  prec : ℚ
  recl : ℚ
  bsize : ℕ
deriving DecidableEq

/-- The running accumulators of lines 128 and 143-147. -/
structure EvalTotals where
  eval_loss : ℚ
  eval_accuracy : ℚ
  eval_precision : ℚ
  eval_recall : ℚ
  eval_examples : ℕ
deriving DecidableEq

/-- Lines 143-147: the `+=` updates one evaluation batch applies to the
accumulators. -/
def evalUpdate (t : EvalTotals) (b : EvalBatchOut) : EvalTotals :=
  { eval_loss := t.eval_loss + b.loss
    eval_accuracy := t.eval_accuracy + b.acc
    eval_precision := t.eval_precision + b.prec
    eval_recall := t.eval_recall + b.recl
    eval_examples := t.eval_examples + b.bsize }

/-- Lines 128-147: fold of the evaluation loop's `+=` updates, starting from
`0, 0, 0, 0, 0` (line 128). -/
def evalAccumulate (outs : List EvalBatchOut) : EvalTotals :=
  outs.foldl evalUpdate ⟨0, 0, 0, 0, 0⟩

/-- Lines 149-152: each accumulator divided by `len(eval_loader)`, the number
of batches; `eval_examples` takes part in no division. -/
def evalResult (outs : List EvalBatchOut) : EvalTotals :=
  let t := evalAccumulate outs
  { eval_loss := t.eval_loss / (outs.length : ℚ)
    eval_accuracy := t.eval_accuracy / (outs.length : ℚ)
    eval_precision := t.eval_precision / (outs.length : ℚ)
    eval_recall := t.eval_recall / (outs.length : ℚ)
    eval_examples := t.eval_examples }

/-- Lines 164-166: one checkpoint decision. Returns whether
`torch.save` runs (`eval_accuracy >= best_accuracy`) and the new
`best_accuracy`. -/
def checkpointStep (best acc : ℚ) : Bool × ℚ :=
  if best ≤ acc then (true, acc) else (false, best)

/-- The checkpoint decisions of the epoch loop (line 105) in order, starting
from the current `best_accuracy`, together with the final `best_accuracy`
(initialized to `0` at line 100 by the caller). -/
def runCheckpoints : ℚ → List ℚ → List Bool × ℚ
  | best, [] => ([], best)
  | best, acc :: rest =>
    let s := checkpointStep best acc
    let r := runCheckpoints s.2 rest
    (s.1 :: r.1, r.2)

/-- The per-epoch `eval_accuracy` values of a run, one entry of `epochs` per
epoch holding that epoch's evaluation-batch outputs (lines 150, 164). -/
def runAccuracies (epochs : List (List EvalBatchOut)) : List ℚ :=
  epochs.map fun outs => (evalResult outs).eval_accuracy

/-! ### Helper lemmas about the batching of a `DataLoader` -/

theorem batches_nil (K : ℕ) : batches K ([] : List α) = [] := by
  rw [batches]
  split <;> rfl

theorem batches_cons (K : ℕ) (hK : K ≠ 0) (x : α) (rest : List α) :
    batches K (x :: rest) = (x :: rest).take K :: batches K ((x :: rest).drop K) := by
  rw [batches]
  simp [hK]

theorem batches_flatten (K : ℕ) (hK : K ≠ 0) (xs : List α) :
    (batches K xs).flatten = xs := by
  induction xs using batches.induct K with
  | case1 x h => exact absurd h hK
  | case2 h => simp [batches_nil]
  | case3 h x rest ih =>
    rw [batches_cons K hK]
    simp only [List.flatten_cons]
    rw [ih]
    exact List.take_append_drop K (x :: rest)

theorem batches_length (K : ℕ) (hK : K ≠ 0) (xs : List α) :
    (batches K xs).length = (xs.length + K - 1) / K := by
  induction xs using batches.induct K with
  | case1 x h => exact absurd h hK
  | case2 h =>
    rw [batches_nil]
    simp only [List.length_nil]
    exact (Nat.div_eq_of_lt (by omega)).symm
  | case3 h x rest ih =>
    rw [batches_cons K hK]
    simp only [List.length_cons, List.length_drop] at *
    rw [ih]
    have hKpos : 0 < K := Nat.pos_of_ne_zero hK
    rcases le_or_lt K (rest.length + 1) with hKL | hKL
    · have e1 : rest.length + 1 - K + K - 1 = rest.length + 1 - 1 := by omega
      have e2 : rest.length + 1 + K - 1 = (rest.length + 1 - 1) + K := by omega
      rw [e1, e2, Nat.add_div_right _ hKpos]
    · have e1 : rest.length + 1 - K + K - 1 = K - 1 := by omega
      have e2 : rest.length + 1 + K - 1 = (rest.length + 1 - 1) + K := by omega
      rw [e1, e2, Nat.add_div_right _ hKpos,
        Nat.div_eq_of_lt (by omega), Nat.div_eq_of_lt (by omega)]

theorem batches_getLastD (K : ℕ) (hK : K ≠ 0) (xs : List α) :
    ∀ (d : List α), xs ≠ [] →
      ((batches K xs).getLastD d).length =
        if xs.length % K = 0 then K else xs.length % K := by
  induction xs using batches.induct K with
  | case1 x h => exact absurd h hK
  | case2 h => exact fun d hxs => absurd rfl hxs
  | case3 h x rest ih =>
    intro d hxs
    rw [batches_cons K hK]
    by_cases hdrop : (x :: rest).drop K = []
    · have hlen : (x :: rest).length ≤ K := List.drop_eq_nil_iff.mp hdrop
      rw [hdrop, batches_nil, List.getLastD_cons, List.getLastD_nil, List.length_take]
      rcases Nat.lt_or_ge (x :: rest).length K with hlt | hge
      · rw [Nat.mod_eq_of_lt hlt, if_neg (by simp)]
        exact min_eq_right (le_of_lt hlt)
      · have heq : (x :: rest).length = K := le_antisymm hlen hge
        rw [heq, Nat.mod_self, if_pos rfl, min_self]
    · have hKle : K ≤ (x :: rest).length := by
        rcases Nat.lt_or_ge (x :: rest).length K with hlt | hge
        · exact absurd (List.drop_eq_nil_of_le (le_of_lt hlt)) hdrop
        · exact hge
      rw [List.getLastD_cons, ih _ hdrop]
      simp only [List.length_drop]
      rw [← Nat.mod_eq_sub_mod hKle]

theorem batches_mem_length_le (K : ℕ) (xs : List α) :
    ∀ b ∈ batches K xs, b.length ≤ K := by
  induction xs using batches.induct K with
  | case1 x h =>
    intro b hb
    rw [batches.eq_def] at hb
    simp [h] at hb
  | case2 h =>
    intro b hb
    rw [batches_nil] at hb
    simp at hb
  | case3 h x rest ih =>
    intro b hb
    rw [batches_cons K h] at hb
    rcases List.mem_cons.mp hb with rfl | hb
    · exact List.length_take_le K (x :: rest)
    · exact ih b hb

/-! ### Helper lemmas about the metric computer and the evaluation loop -/

theorem divUndef_none_iff (a b : ℕ) : divUndef a b = none ↔ b = 0 := by
  rw [divUndef]
  split_ifs with h <;> simp [h]

theorem divUndef_nonneg (a b : ℕ) (q : ℚ) (h : divUndef a b = some q) : 0 ≤ q := by
  rw [divUndef] at h
  split_ifs at h
  simp only [Option.some.injEq] at h
  rw [← h]
  positivity

theorem accuracy_fst_nonneg (lg : List (List ℚ)) (lb : List ℕ) (a p r : ℚ)
    (h : accuracy lg lb = some (a, p, r)) : 0 ≤ a := by
  rw [accuracy] at h
  cases hA : divUndef (countEq (lg.map argmaxIdx) lb) (lg.map argmaxIdx).length with
  | none => rw [hA] at h; simp at h
  | some qa =>
    cases hP : divUndef (sum1 (lg.map argmaxIdx) lb) (lg.map argmaxIdx).sum with
    | none => rw [hA, hP] at h; simp at h
    | some qp =>
      cases hR : divUndef (sum1 (lg.map argmaxIdx) lb) lb.sum with
      | none => rw [hA, hP, hR] at h; simp at h
      | some qr =>
        rw [hA, hP, hR] at h
        simp only [Option.some.injEq, Prod.mk.injEq] at h
        obtain ⟨rfl, -, -⟩ := h
        exact divUndef_nonneg _ _ _ hA

theorem sum_eq_countOnes (ns : List ℕ) (h : ∀ n ∈ ns, n ≤ 1) :
    ns.sum = ((ns.filter fun n => n == 1).length) := by
  induction ns with
  | nil => rfl
  | cons n ms ih =>
    have hn : n ≤ 1 := h n (List.mem_cons_self n ms)
    have hrest := ih fun m hm => h m (List.mem_cons_of_mem n hm)
    interval_cases n <;> simp [List.filter_cons, hrest, Nat.add_comm]

theorem evalAccumulate_go (outs : List EvalBatchOut) (t : EvalTotals) :
    outs.foldl evalUpdate t =
      { eval_loss := t.eval_loss + (outs.map EvalBatchOut.loss).sum
        eval_accuracy := t.eval_accuracy + (outs.map EvalBatchOut.acc).sum
        eval_precision := t.eval_precision + (outs.map EvalBatchOut.prec).sum
        eval_recall := t.eval_recall + (outs.map EvalBatchOut.recl).sum
        eval_examples := t.eval_examples + (outs.map EvalBatchOut.bsize).sum } := by
  induction outs generalizing t with
  | nil => cases t; simp
  | cons b bs ih =>
    rw [List.foldl_cons, ih]
    cases t
    simp [evalUpdate, add_assoc]

theorem evalAccumulate_spec (outs : List EvalBatchOut) :
    evalAccumulate outs =
      { eval_loss := (outs.map EvalBatchOut.loss).sum
        eval_accuracy := (outs.map EvalBatchOut.acc).sum
        eval_precision := (outs.map EvalBatchOut.prec).sum
        eval_recall := (outs.map EvalBatchOut.recl).sum
        eval_examples := (outs.map EvalBatchOut.bsize).sum } := by
  rw [evalAccumulate, evalAccumulate_go]
  simp

/-! ### Claim theorems -/

/-- C1, counterexample: with training folds of 1, 2 and 1 batches (datasets of
sizes 1, 2, 1, 1 at batch size 1) and batch loss constantly 1, the reported
`train_loss` is `4 / (len(data_loaders[0]) * 3) = 4/3`, not the claimed
`4 / 4 = 1` — the sum divided by the total number of training batches. -/
theorem train_loss_normalization_counterexample :
    reported_train_loss (fun _ => 1)
        (buildLoaders 1 1 fun i => if i = 1 then [0, 1] else [0]) ≠
      epoch_train_loss_sum (fun _ => 1)
          (buildLoaders 1 1 fun i => if i = 1 then [0, 1] else [0]) /
        (train_batch_count
          (buildLoaders 1 1 fun i => if i = 1 then [0, 1] else [0]) : ℚ) := by
  norm_num [reported_train_loss, epoch_train_loss_sum, step_per_epoch,
    train_batch_count, buildLoaders, batches,
    show ¬((0 : Fin 4) = 1) from by decide, show ¬((2 : Fin 4) = 1) from by decide,
    show ¬((3 : Fin 4) = 1) from by decide]

/-- C1, amended: the reported `train_loss` is the sum of the per-batch losses
divided by `len(data_loaders[0]) * 3`, which equals the total number of
training batches across the three training folds exactly when the three folds
have equal batch counts. -/
theorem train_loss_normalization (lossOf : List α → ℚ) (L : Loaders α)
    (h1 : L.dl1.length = L.dl0.length) (h2 : L.dl2.length = L.dl0.length) :
    reported_train_loss lossOf L =
      epoch_train_loss_sum lossOf L / (train_batch_count L : ℚ) := by
  rw [reported_train_loss, step_per_epoch, train_batch_count, h1, h2,
    show L.dl0.length * 3 = L.dl0.length + L.dl0.length + L.dl0.length from by ring]

/-- C1, witness: the amended statement at three training folds of one batch
each and batch loss 2. -/
theorem train_loss_normalization_witness :
    reported_train_loss (fun _ => (2 : ℚ)) (buildLoaders 1 1 fun _ => [0]) =
      epoch_train_loss_sum (fun _ => (2 : ℚ)) (buildLoaders 1 1 fun _ => [0]) /
        (train_batch_count (buildLoaders 1 1 fun _ => ([0] : List ℕ)) : ℚ) :=
  train_loss_normalization _ _ (by norm_num [buildLoaders, batches])
    (by norm_num [buildLoaders, batches])

/-- C2, counterexample: at `train_batch_size = 4`, `eval_batch_size = 2` and a
four-element evaluation dataset, the evaluation loader holds one batch of four
elements, which exceeds `eval_batch_size`. -/
theorem eval_batch_size_counterexample :
    (buildLoaders 4 2 fun _ => [0, 1, 2, 3] : Loaders ℕ).dl3 = [[0, 1, 2, 3]] ∧
      ¬ (([0, 1, 2, 3] : List ℕ).length ≤ 2) := by
  constructor
  · norm_num [buildLoaders, batches]
  · norm_num

/-- C2, amended: the evaluation loader (`data_loaders[3]`) is built with
`train_batch_size` — `eval_batch_size` plays no role — and every one of its
batches has size at most `train_batch_size`. -/
theorem eval_loader_uses_train_batch_size (train_bs eval_bs : ℕ)
    (ds : Fin 4 → List α) :
    (buildLoaders train_bs eval_bs ds).dl3 = batches train_bs (ds 3) ∧
      ∀ b ∈ (buildLoaders train_bs eval_bs ds).dl3, b.length ≤ train_bs :=
  ⟨rfl, fun b hb => batches_mem_length_le train_bs (ds 3) b hb⟩

/-- C2, witness: the amended bound applied to the counterexample's
configuration (`train_batch_size = 4`). -/
theorem eval_loader_uses_train_batch_size_witness :
    ([0, 1, 2, 3] : List ℕ).length ≤ 4 :=
  (eval_loader_uses_train_batch_size 4 2 fun _ => [0, 1, 2, 3]).2 [0, 1, 2, 3]
    (by norm_num [buildLoaders, batches])

/-- C3, counterexample: with three classes, predictions `[1, 2]` and labels
`[1, 2]`, the source's `accuracy` returns precision and recall `1/3` (the
denominators are `sum(outputs) = 3` and `sum(labels) = 3`, sums of class
indices), while the claimed count-based formulas give `1`. -/
theorem metric_count_denominator_counterexample :
    accuracy [[0, 1, 0], [0, 0, 1]] [1, 2] = some (1, 1/3, 1/3) ∧
      precisionRecallSpec [[0, 1, 0], [0, 0, 1]] [1, 2] = some (1, 1) ∧
      ¬ ((1 : ℚ)/3 = 1) := by
  refine ⟨?_, ?_, by norm_num⟩
  · norm_num [accuracy, argmaxIdx, argmaxGo, countEq, sum1, divUndef]
  · norm_num [precisionRecallSpec, argmaxIdx, argmaxGo, sum1, divUndef]

/-- C3, amended: when every predicted class and every label lies in `{0, 1}`
(the binary case), the precision and recall returned by `accuracy` agree with
the claimed count-based formulas, zero-denominator behaviour included. -/
theorem binary_precision_recall (lg : List (List ℚ)) (lb : List ℕ)
    (houts : ∀ o ∈ lg.map argmaxIdx, o ≤ 1) (hlabs : ∀ l ∈ lb, l ≤ 1) :
    Option.map (fun t : ℚ × ℚ × ℚ => (t.2.1, t.2.2)) (accuracy lg lb) =
      precisionRecallSpec lg lb := by
  simp only [accuracy, precisionRecallSpec]
  rw [← sum_eq_countOnes (lg.map argmaxIdx) houts, ← sum_eq_countOnes lb hlabs]
  cases hA : divUndef (countEq (lg.map argmaxIdx) lb) (lg.map argmaxIdx).length with
  | none =>
    have hlen : (lg.map argmaxIdx).length = 0 := (divUndef_none_iff _ _).mp hA
    have hsum : (lg.map argmaxIdx).sum = 0 := by
      rw [List.length_eq_zero.mp hlen]
      rfl
    have hP : divUndef (sum1 (lg.map argmaxIdx) lb) (lg.map argmaxIdx).sum = none := by
      rw [hsum]
      exact (divUndef_none_iff _ _).mpr rfl
    rw [hP]
    cases hR : divUndef (sum1 (lg.map argmaxIdx) lb) lb.sum <;> simp
  | some qa =>
    cases hP : divUndef (sum1 (lg.map argmaxIdx) lb) (lg.map argmaxIdx).sum with
    | none =>
      cases hR : divUndef (sum1 (lg.map argmaxIdx) lb) lb.sum <;> simp
    | some qp =>
      cases hR : divUndef (sum1 (lg.map argmaxIdx) lb) lb.sum <;> simp

/-- C3, witness: the amended statement at binary predictions `[1, 0]` and
binary labels `[1, 0]`. -/
theorem binary_precision_recall_witness :
    Option.map (fun t : ℚ × ℚ × ℚ => (t.2.1, t.2.2)) (accuracy [[0, 1], [1, 0]] [1, 0]) =
      precisionRecallSpec [[0, 1], [1, 0]] [1, 0] :=
  binary_precision_recall [[0, 1], [1, 0]] [1, 0]
    (by norm_num [argmaxIdx, argmaxGo]) (by norm_num)

/-- C4: when the precision denominator `sum(outputs)` or the recall denominator
`sum(labels)` is zero, the whole metric computation is undefined (`none`) — no
branch coerces the metric to zero or any other default. -/
theorem zero_denominator_propagates (lg : List (List ℚ)) (lb : List ℕ)
    (h : (lg.map argmaxIdx).sum = 0 ∨ lb.sum = 0) :
    accuracy lg lb = none := by
  simp only [accuracy]
  cases hA : divUndef (countEq (lg.map argmaxIdx) lb) (lg.map argmaxIdx).length with
  | none =>
    cases hP : divUndef (sum1 (lg.map argmaxIdx) lb) (lg.map argmaxIdx).sum <;>
      cases hR : divUndef (sum1 (lg.map argmaxIdx) lb) lb.sum <;> simp
  | some qa =>
    cases hP : divUndef (sum1 (lg.map argmaxIdx) lb) (lg.map argmaxIdx).sum with
    | none =>
      cases hR : divUndef (sum1 (lg.map argmaxIdx) lb) lb.sum <;> simp
    | some qp =>
      cases hR : divUndef (sum1 (lg.map argmaxIdx) lb) lb.sum with
      | none => simp
      | some qr =>
        exfalso
        rcases h with h | h
        · rw [h] at hP
          simp [divUndef] at hP
        · rw [h] at hR
          simp [divUndef] at hR

/-- C4, witness: both rows predict class 0, so no example is predicted
positive and the metric triple is undefined. -/
theorem zero_denominator_propagates_witness :
    accuracy [[1, 0], [1, 0]] [0, 1] = none :=
  zero_denominator_propagates [[1, 0], [1, 0]] [0, 1]
    (Or.inl (by norm_num [argmaxIdx, argmaxGo]))

/-- C5: the checkpoint save fires exactly when `eval_accuracy >= best_accuracy`
(non-strict), a save updates `best_accuracy` to the epoch's accuracy, and over
the accuracies `[0.5, 0.6, 0.55, 0.6, 0.7]` starting from `best_accuracy = 0`
exactly the first, second, fourth and fifth epochs save. -/
theorem checkpoint_decision_policy :
    (∀ best acc : ℚ, ((checkpointStep best acc).1 = true ↔ best ≤ acc)) ∧
    (∀ best acc : ℚ, best ≤ acc → (checkpointStep best acc).2 = acc) ∧
    (runCheckpoints 0 [1/2, 3/5, 11/20, 3/5, 7/10]).1 =
      [true, true, false, true, true] := by
  refine ⟨?_, ?_, ?_⟩
  · intro best acc
    by_cases hc : best ≤ acc <;> simp [checkpointStep, hc]
  · intro best acc hc
    simp [checkpointStep, hc]
  · norm_num [runCheckpoints, checkpointStep]

/-- C5, witness: the decision at `best_accuracy = 0`, `eval_accuracy = 1/2`
saves and updates the best value. -/
theorem checkpoint_decision_policy_witness :
    (checkpointStep 0 (1/2)).1 = true ∧ (checkpointStep 0 (1/2)).2 = 1/2 :=
  ⟨(checkpoint_decision_policy.1 0 (1/2)).mpr (by norm_num),
    checkpoint_decision_policy.2.1 0 (1/2) (by norm_num)⟩

/-- C6: `best_accuracy` never decreases — a single checkpoint decision yields a
value at least the previous one, and across any run of epochs the final value
is at least the starting one. -/
theorem best_accuracy_monotone :
    (∀ best acc : ℚ, best ≤ (checkpointStep best acc).2) ∧
    (∀ (accs : List ℚ) (best : ℚ), best ≤ (runCheckpoints best accs).2) := by
  have hstep : ∀ best acc : ℚ, best ≤ (checkpointStep best acc).2 := by
    intro best acc
    rw [checkpointStep]
    split_ifs with hc
    · exact hc
    · exact le_refl best
  refine ⟨hstep, ?_⟩
  intro accs
  induction accs with
  | nil => intro best; simp [runCheckpoints]
  | cons a rest ih =>
    intro best
    rw [runCheckpoints]
    exact le_trans (hstep best a) (ih ((checkpointStep best a).2))

/-- C7: for a nonempty dataset and positive batch size `K`, the loader has
`ceil(N/K)` batches, the last batch has size `N mod K` (or `K` when `K`
divides `N`), and concatenating the batches — or any per-example field such as
the labels — reproduces the dataset in order. -/
theorem fold_batches_spec {β : Type} (K : ℕ) (xs : List α) (f : α → β)
    (hK : 0 < K) (hxs : xs ≠ []) :
    (batches K xs).length = (xs.length + K - 1) / K ∧
    ((batches K xs).getLastD []).length =
      (if xs.length % K = 0 then K else xs.length % K) ∧
    (batches K xs).flatten = xs ∧
    ((batches K xs).map (List.map f)).flatten = xs.map f := by
  have hK0 : K ≠ 0 := by omega
  refine ⟨batches_length K hK0 xs, batches_getLastD K hK0 xs [] hxs,
    batches_flatten K hK0 xs, ?_⟩
  rw [← List.map_flatten, batches_flatten K hK0 xs]

/-- C7, witness: a three-element dataset at batch size 2 gives batches
`[[10, 20], [30]]`. -/
theorem fold_batches_spec_witness :
    (batches 2 [10, 20, 30]).length = (([10, 20, 30] : List ℕ).length + 2 - 1) / 2 ∧
    ((batches 2 [10, 20, 30]).getLastD []).length =
      (if ([10, 20, 30] : List ℕ).length % 2 = 0 then 2
        else ([10, 20, 30] : List ℕ).length % 2) ∧
    (batches 2 [10, 20, 30]).flatten = [10, 20, 30] ∧
    ((batches 2 [10, 20, 30]).map (List.map Nat.succ)).flatten =
      [10, 20, 30].map Nat.succ :=
  fold_batches_spec 2 [10, 20, 30] Nat.succ (by norm_num) (by simp)

/-- C8: every reported evaluation metric is the sum of its per-batch values
divided by the number of batches; and at batches of unequal size (2 and 1
examples) this differs from dividing by the number of examples. -/
theorem eval_metrics_macro_average (outs : List EvalBatchOut) :
    ((evalResult outs).eval_loss = (outs.map EvalBatchOut.loss).sum / (outs.length : ℚ) ∧
      (evalResult outs).eval_accuracy = (outs.map EvalBatchOut.acc).sum / (outs.length : ℚ) ∧
      (evalResult outs).eval_precision = (outs.map EvalBatchOut.prec).sum / (outs.length : ℚ) ∧
      (evalResult outs).eval_recall = (outs.map EvalBatchOut.recl).sum / (outs.length : ℚ)) ∧
    (evalResult [⟨1, 0, 0, 0, 2⟩, ⟨0, 0, 0, 0, 1⟩]).eval_loss ≠
      (([⟨1, 0, 0, 0, 2⟩, ⟨0, 0, 0, 0, 1⟩] : List EvalBatchOut).map EvalBatchOut.loss).sum /
        ((([⟨1, 0, 0, 0, 2⟩, ⟨0, 0, 0, 0, 1⟩] : List EvalBatchOut).map EvalBatchOut.bsize).sum : ℚ) := by
  constructor
  · rw [evalResult, evalAccumulate_spec]
    exact ⟨rfl, rfl, rfl, rfl⟩
  · norm_num [evalResult, evalAccumulate, evalUpdate]

/-- C9: each training step runs forward pass, mean reduction exactly when more
than one device is in use, backward pass, gradient clipping at the fixed bound
1.0, optimizer step, scheduler step and gradient reset, in this order; under
mean reduction the recorded scalar loss is the arithmetic mean of the
per-replica losses. -/
theorem training_step_order (n_gpu : ℕ) (lossVec : List ℚ) :
    (trainStep n_gpu lossVec).2 =
      StepOp.forward ::
        ((if 1 < n_gpu then [StepOp.reduceMeanLoss] else []) ++
          [StepOp.backward, StepOp.clipGradNorm 1, StepOp.optimizerStep,
            StepOp.schedulerStep, StepOp.zeroGrad]) ∧
    (1 < n_gpu → (trainStep n_gpu lossVec).1 = lossVec.sum / (lossVec.length : ℚ)) := by
  constructor
  · rw [trainStep]
    by_cases hn : 1 < n_gpu <;> simp [hn]
  · intro hn
    rw [trainStep]
    simp [hn]

/-- C9, witness: two devices with replica losses 1 and 3 record the mean 2. -/
theorem training_step_order_witness :
    (trainStep 2 [1, 3]).1 = 2 := by
  have h := (training_step_order 2 [1, 3]).2 (by norm_num)
  rw [h]
  norm_num

/-- C10: in the first epoch `best_accuracy` is 0 and `eval_accuracy` is an
average of per-batch accuracy fractions, each nonnegative because it comes from
`accuracy`; hence the first checkpoint decision of every run saves. -/
theorem first_epoch_always_saves (outs : List EvalBatchOut)
    (rest : List (List EvalBatchOut)) (hne : outs ≠ [])
    (hacc : ∀ b ∈ outs, ∃ lg lb p r, accuracy lg lb = some (b.acc, p, r)) :
    (runCheckpoints 0 (runAccuracies (outs :: rest))).1.head? = some true := by
  have hnn : ∀ b ∈ outs, 0 ≤ b.acc := by
    intro b hb
    obtain ⟨lg, lb, p, r, hval⟩ := hacc b hb
    exact accuracy_fst_nonneg lg lb _ p r hval
  have hsum : 0 ≤ (outs.map EvalBatchOut.acc).sum := by
    apply List.sum_nonneg
    intro x hx
    obtain ⟨b, hb, rfl⟩ := List.mem_map.mp hx
    exact hnn b hb
  have hres : 0 ≤ (evalResult outs).eval_accuracy := by
    have heq : (evalResult outs).eval_accuracy =
        (outs.map EvalBatchOut.acc).sum / (outs.length : ℚ) := by
      rw [evalResult, evalAccumulate_spec]
    rw [heq]
    exact div_nonneg hsum (Nat.cast_nonneg _)
  rw [runAccuracies, List.map_cons]
  simp [runCheckpoints, checkpointStep, hres]

/-- C10, witness: a one-batch first epoch whose accuracy value 1 comes from
`accuracy [[0, 1]] [1]` triggers the save. -/
theorem first_epoch_always_saves_witness :
    (runCheckpoints 0 (runAccuracies [[⟨1, 1, 1, 1, 1⟩]])).1.head? = some true := by
  apply first_epoch_always_saves [⟨1, 1, 1, 1, 1⟩] [] (by simp)
  intro b hb
  simp only [List.mem_singleton] at hb
  subst hb
  exact ⟨[[0, 1]], [1], 1, 1,
    by norm_num [accuracy, argmaxIdx, argmaxGo, countEq, sum1, divUndef]⟩

end Bert
